import Mathlib

/-!
Verification development for the Clixxi CLI framework
(`include/clixxi/{context,command,app,option,exception}.hpp`).

The C++ code is shallowly embedded:

* `std::map<std::string, std::string>` (the Raw Option Store) is modelled
  as an association list in insertion order, observed only through
  `mapFind` (= `std::map::find`); `std::map::emplace` inserts only when
  the key is absent, which the list realises by keeping the first
  binding for a key (`mapFind` returns the first match).
* the `Context` constructor, `get_option<T>` for `T ∈ {bool, int, float,
  std::string}`, the defaulted `get_option<T>(name, default)`,
  `has_option`, `Command::{option, run, execute}` and `App::run` are
  translated function by function.
* C++ exceptions become `Except` values; the exception classes of
  `exception.hpp` become the constructors of `CliError`.  Handler-thrown
  exceptions of arbitrary type are a type parameter `ε`, so `execute`
  and `App.run` return `Except (CliError ⊕ ε) _`.
* `std::stoi(s, &pos)` / `std::stof(s, &pos)` are modelled on the
  character list of the string: skip C-locale whitespace, optional
  sign, then digits (for `stof`: decimal/scientific mantissa and
  optional exponent).  The model returns the parsed value and the
  number of characters consumed, `none` on a parse failure
  (`std::invalid_argument`) or, for `stoi`, a value outside the 32-bit
  `int` range (`std::out_of_range`); both exceptions are mapped to
  `BadOptionType` by the caller, so collapsing them loses nothing.
  `stof`'s value is modelled exactly as a rational; rounding to
  binary32 and the hexadecimal/infinity/nan spellings are not modelled
  (no claim touches them, and the consumed-length rule is unaffected).
* writes to `std::cout` are collected in the result of `App.run`; a
  warning sent to the logging collaborator by the defaulted accessor
  is recorded as the `CliError` it reports.
-/

deriving instance DecidableEq for Except

/-- The closed error taxonomy of `exception.hpp`. -/
inductive CliError where
  | optionNotFound (name : String)
  | missingRequiredOption (name : String)
  | badOptionType (name : String) (expected : String)
  | commandNotFound (name : String)
  | commandHasNotHandler (name : String)
deriving DecidableEq, Repr

/-- `std::map::find`: the store keeps the first binding for each key
(`emplace` never overwrites), so the first match is the map entry. -/
def mapFind {α : Type} : List (String × α) → String → Option α
  | [], _ => none
  | (k, v) :: r, name => if k = name then some v else mapFind r name

/-- C-locale `isspace`, the characters `std::stoi`/`std::stof` skip. -/
def isSpaceC (c : Char) : Bool :=
  c == ' ' || c == '\t' || c == '\n' || c == '\x0b' || c == '\x0c' || c == '\r'

/-- Value of a block of decimal digits. -/
def digitsVal (ds : List Char) : Nat :=
  ds.foldl (fun a c => a * 10 + (c.toNat - 48)) 0

/-- Optional leading sign: sign, characters consumed, remainder. -/
def signSplit : List Char → Int × Nat × List Char
  | '-' :: r => (-1, 1, r)
  | '+' :: r => (1, 1, r)
  | r => (1, 0, r)

/-- The sign-and-digits part of `std::stoi`, applied after the leading
whitespace has been skipped; the returned position counts from the start
of `rest`. -/
def stoiAfterWs (rest : List Char) : Option (Int × Nat) :=
  let (sg, sgLen, rest2) := signSplit rest
  let ds := rest2.takeWhile Char.isDigit
  if ds.isEmpty then none
  else some (sg * (digitsVal ds : Int), sgLen + ds.length)

/-- `std::stoi(s, &pos)` without the `int` range check: skip C-locale
whitespace, optional sign, then a nonempty digit run; returns the value
and `pos` (characters consumed, the skipped whitespace included), or
`none` when no digits follow (`std::invalid_argument`). -/
def stoiCore (s : List Char) : Option (Int × Nat) :=
  (stoiAfterWs (s.dropWhile isSpaceC)).map
    (fun vp => (vp.1, (s.takeWhile isSpaceC).length + vp.2))

def intMin : Int := -2147483648
def intMax : Int := 2147483647

/-- `std::stoi(s, &pos)`: `none` also when the value falls outside the
32-bit `int` range (`std::out_of_range`). -/
def stoi (s : String) : Option (Int × Nat) :=
  match stoiCore s.data with
  | none => none
  | some (v, pos) => if v < intMin ∨ intMax < v then none else some (v, pos)

/-- Exponent part of `std::stof`: `e`/`E`, optional sign, digits; consumed
only when at least one digit follows, otherwise rolled back entirely. -/
def expPart : List Char → Int × Nat
  | c :: r =>
    if c == 'e' || c == 'E' then
      let (sg, sgLen, r2) := signSplit r
      let eds := r2.takeWhile Char.isDigit
      if eds.isEmpty then (0, 0)
      else (sg * (digitsVal eds : Int), 1 + sgLen + eds.length)
    else (0, 0)
  | [] => (0, 0)

/-- Fraction part of `std::stof`'s mantissa: a `.` followed by a digit
run; returns the fraction digits, the characters consumed (the dot
included) and the remainder. -/
def fracSplit : List Char → List Char × Nat × List Char
  | '.' :: r =>
    (r.takeWhile Char.isDigit, 1 + (r.takeWhile Char.isDigit).length,
      r.dropWhile Char.isDigit)
  | r => ([], 0, r)

/-- The sign/mantissa/exponent part of `std::stof`, applied after the
leading whitespace has been skipped; the position counts from the start
of `rest`. -/
def stofAfterWs (rest : List Char) : Option (Rat × Nat) :=
  let (sg, sgLen, rest2) := signSplit rest
  let ids := rest2.takeWhile Char.isDigit
  let rest3 := rest2.dropWhile Char.isDigit
  let (fds, fLen, rest4) := fracSplit rest3
  if ids.isEmpty ∧ fds.isEmpty then none
  else
    let (eVal, eLen) := expPart rest4
    let m : Int := sg * (digitsVal (ids ++ fds) : Int)
    let e : Int := eVal - (fds.length : Int)
    let value : Rat :=
      if 0 ≤ e then mkRat (m * ((10 ^ e.toNat : Nat) : Int)) 1
      else mkRat m (10 ^ (-e).toNat)
    some (value, sgLen + ids.length + fLen + eLen)

/-- `std::stof(s, &pos)` on the decimal/scientific forms: whitespace,
optional sign, mantissa `digits[.digits]` or `.digits` (at least one
digit overall), optional exponent.  Returns the exact rational value and
`pos`; `none` when the mantissa has no digit (`std::invalid_argument`). -/
def stofCore (s : List Char) : Option (Rat × Nat) :=
  (stofAfterWs (s.dropWhile isSpaceC)).map
    (fun vp => (vp.1, (s.takeWhile isSpaceC).length + vp.2))

def stof (s : String) : Option (Rat × Nat) :=
  stofCore s.data

/-- A token is an option marker iff `arg.substr(0, 2) == "--"`;
`substr` clamps to the string length, so this holds exactly when the
first two characters exist and are `-`, `-`. -/
def isMarker (arg : String) : Bool :=
  arg.data.take 2 == ['-', '-']

/-- `arg.substr(2)`: the option name, marker stripped. -/
def optKey (arg : String) : String :=
  String.mk (arg.data.drop 2)

/-- The Argument Binder loop of the `Context` constructor: scan left to
right; a non-marker token is skipped; a marker binds the following token
when that exists and is not itself a marker (advancing past it),
otherwise binds `"true"`.  Bindings are listed in insertion order;
`mapFind` keeps the first, as `std::map::emplace` does. -/
def bindArgs : List String → List (String × String)
  | [] => []
  | [arg] => if isMarker arg then [(optKey arg, "true")] else []
  | arg :: nxt :: rest2 =>
    if isMarker arg then
      if isMarker nxt then (optKey arg, "true") :: bindArgs (nxt :: rest2)
      else (optKey arg, nxt) :: bindArgs rest2
    else bindArgs (nxt :: rest2)

/-- Modelled from the spec's wording of the Argument Binder (§4.1): scan
the token sequence with an index cursor; a marker token binds the next
token as its value when that token exists and is not itself a marker,
advancing the cursor by two; otherwise it binds `"true"`, advancing the
cursor by one; a non-marker token is silently ignored, advancing by one. -/
def bindCursorSpec (args : List String) (i : Nat) : List (String × String) :=
  if h : i < args.length then
    if isMarker args[i] then
      if h2 : i + 1 < args.length then
        if isMarker args[i + 1] then
          (optKey args[i], "true") :: bindCursorSpec args (i + 1)
        else
          (optKey args[i], args[i + 1]) :: bindCursorSpec args (i + 2)
      else (optKey args[i], "true") :: bindCursorSpec args (i + 1)
    else bindCursorSpec args (i + 1)
  else []
termination_by args.length - i

/-- `Clixxi::Context`: the Raw Option Store. -/
structure Context where
  options_ : List (String × String)
deriving DecidableEq, Repr

/-- The `Context(const std::vector<std::string>&)` constructor. -/
def Context.ofArgs (args : List String) : Context :=
  ⟨bindArgs args⟩

/-- `Context::has_option`. -/
def Context.has_option (ctx : Context) (name : String) : Bool :=
  (mapFind ctx.options_ name).isSome

/-- `Context::get_option<std::string>`. -/
def Context.get_option_string (ctx : Context) (name : String) :
    Except CliError String :=
  match mapFind ctx.options_ name with
  | none => .error (.missingRequiredOption name)
  | some value => .ok value

/-- `Context::get_option<bool>`. -/
def Context.get_option_bool (ctx : Context) (name : String) :
    Except CliError Bool :=
  match mapFind ctx.options_ name with
  | none => .ok false
  | some value =>
    if value == "true" || value == "1" || value == "on" || value == "yes" then
      .ok true
    else if value == "false" || value == "0" || value == "off" || value == "no" then
      .ok false
    else .error (.badOptionType name "bool")

/-- `Context::get_option<int>`: `std::stoi`, then the whole-string
consumption check `pos == value.size()`; every failure becomes
`BadOptionTypeException(name, "int")`. -/
def Context.get_option_int (ctx : Context) (name : String) :
    Except CliError Int :=
  match mapFind ctx.options_ name with
  | none => .error (.missingRequiredOption name)
  | some value =>
    match stoi value with
    | none => .error (.badOptionType name "int")
    | some (v, pos) =>
      if pos = value.data.length then .ok v
      else .error (.badOptionType name "int")

/-- `Context::get_option<float>`: `std::stof`, then the whole-string
consumption check. -/
def Context.get_option_float (ctx : Context) (name : String) :
    Except CliError Rat :=
  match mapFind ctx.options_ name with
  | none => .error (.missingRequiredOption name)
  | some value =>
    match stof value with
    | none => .error (.badOptionType name "float")
    | some (v, pos) =>
      if pos = value.data.length then .ok v
      else .error (.badOptionType name "float")

/-- The defaulted `get_option<T>(name, default)` wrapper: catch
`MissingRequiredOptionException` silently, catch `BadOptionTypeException`
after sending one warning to the logging collaborator (recorded here as
the reported error), re-propagate anything else.  Shared by the four
instantiations below. -/
def catchDefault {τ : Type} (default_value : τ) (r : Except CliError τ) :
    Except CliError (τ × List CliError) :=
  match r with
  | .ok v => .ok (v, [])
  | .error (.missingRequiredOption _) => .ok (default_value, [])
  | .error (.badOptionType n e) => .ok (default_value, [.badOptionType n e])
  | .error e => .error e

/-- Defaulted `get_option<std::string>`. -/
def Context.get_option_string_d (ctx : Context) (name : String)
    (default_value : String) : Except CliError (String × List CliError) :=
  catchDefault default_value (ctx.get_option_string name)

/-- Defaulted `get_option<bool>`. -/
def Context.get_option_bool_d (ctx : Context) (name : String)
    (default_value : Bool) : Except CliError (Bool × List CliError) :=
  catchDefault default_value (ctx.get_option_bool name)

/-- Defaulted `get_option<int>`. -/
def Context.get_option_int_d (ctx : Context) (name : String)
    (default_value : Int) : Except CliError (Int × List CliError) :=
  catchDefault default_value (ctx.get_option_int name)

/-- Defaulted `get_option<float>`. -/
def Context.get_option_float_d (ctx : Context) (name : String)
    (default_value : Rat) : Except CliError (Rat × List CliError) :=
  catchDefault default_value (ctx.get_option_float name)

/-- The `Clixxi::Option` descriptor struct of `option.hpp` (renamed: `Option`
is taken by Lean's core library). -/
structure OptionDescriptor where
  option_name_ : String
  option_desc_ : String
deriving DecidableEq, Repr

/-- `std::map::emplace`: insert only when the key is absent (first-wins). -/
def mapEmplace {α : Type} (m : List (String × α)) (k : String) (v : α) :
    List (String × α) :=
  if (mapFind m k).isSome then m else m ++ [(k, v)]

/-- `Clixxi::Command`.  The handler is a `std::function` that may throw
exceptions of any type; those are modelled by the parameter `ε`. -/
structure Command (ε : Type) where
  name_ : String
  desc_ : String
  handler_ : Option (Context → Except ε Unit)
  options_ : List (String × OptionDescriptor)

/-- `Command::option(name, desc)`: `options_.emplace(name, Option(name, desc))`,
then `return *this` (modelled by returning the updated command). -/
def Command.option {ε : Type} (cmd : Command ε) (name : String)
    (desc : String) : Command ε :=
  { cmd with options_ := mapEmplace cmd.options_ name ⟨name, desc⟩ }

/-- `Command::run(handler)`: store the handler, `return *this`. -/
def Command.run {ε : Type} (cmd : Command ε)
    (handler : Context → Except ε Unit) : Command ε :=
  { cmd with handler_ := some handler }

/-- What `Command::execute` returned normally with. -/
inductive ExecOutcome where
  | helpShown
  | handlerCompleted
deriving DecidableEq, Repr

/-- `Command::execute(context)`: help-membership check first, then the
missing-handler check, then the handler call; a handler-thrown `e : ε`
propagates unmodified as `.error (.inr e)`. -/
def Command.execute {ε : Type} (cmd : Command ε) (ctx : Context) :
    Except (CliError ⊕ ε) ExecOutcome :=
  if ctx.has_option "help" then .ok .helpShown
  else
    match cmd.handler_ with
    | none => .error (.inl (.commandHasNotHandler cmd.name_))
    | some h =>
      match h ctx with
      | .ok _ => .ok .handlerCompleted
      | .error e => .error (.inr e)

/-- `Clixxi::App`. -/
structure App (ε : Type) where
  name_ : String
  desc_ : String
  version_ : String
  commands_ : List (String × Command ε)

/-- How a successful `App::run` call returned: after writing strings to
`std::cout` in a reserved-word branch, or after dispatching a command.
(The text a dispatched command itself prints is outside this model; no
claim mentions it.) -/
inductive AppOut where
  | printed (out : List String)
  | executed (cmdName : String) (r : ExecOutcome)
deriving DecidableEq, Repr

/-- `App::run` on `args` = argv minus the program token: empty or
`"help"` prints the literal `"help"` and returns; `"version"` prints
`version_` (and nothing else) and returns; otherwise look up the command,
throwing `CommandNotFoundException` when absent, else execute it on a
`Context` built from `args[1:]`. -/
def App.run {ε : Type} (app : App ε) (args : List String) :
    Except (CliError ⊕ ε) AppOut :=
  match args with
  | [] => .ok (.printed ["help"])
  | a0 :: rest =>
    if a0 = "help" then .ok (.printed ["help"])
    else if a0 = "version" then .ok (.printed [app.version_])
    else
      match mapFind app.commands_ a0 with
      | none => .error (.inl (.commandNotFound a0))
      | some cmd => (cmd.execute (Context.ofArgs rest)).map (.executed a0)

/-- Dispatch example: an app (name `"example_hello"`, version `"1.0"`)
whose registry contains a command literally named `"version"` whose
handler, were it ever invoked, would fail. -/
def versionApp : App Unit :=
  App.mk "example_hello" "" "1.0"
    [("version", Command.mk "version" "" (some (fun _ => Except.error ())) [])]

/-- Dispatch example: an app with one handlerless command `"sum"`. -/
def sumApp : App Unit :=
  App.mk "example_hello" "" "1.0" [("sum", Command.mk "sum" "" none [])]

/-- The sign part of the input is a real prefix: `(sign, len, rest2)`
means the input is `len` sign characters followed by `rest2`. -/
theorem signSplit_pre (l : List Char) :
    ∃ pre : List Char, pre.length = (signSplit l).2.1 ∧ pre ++ (signSplit l).2.2 = l := by
  unfold signSplit
  split
  · exact ⟨['-'], rfl, rfl⟩
  · exact ⟨['+'], rfl, rfl⟩
  · exact ⟨[], rfl, rfl⟩

/-- Skipping one more leading space shifts `stoi`'s consumed count by one
and keeps the value: the position check counts skipped whitespace. -/
theorem stoiCore_space (s : List Char) :
    stoiCore (' ' :: s) = (stoiCore s).map (fun vp => (vp.1, vp.2 + 1)) := by
  unfold stoiCore
  have htw : List.takeWhile isSpaceC (' ' :: s) = ' ' :: List.takeWhile isSpaceC s := rfl
  have hdw : List.dropWhile isSpaceC (' ' :: s) = List.dropWhile isSpaceC s := rfl
  rw [htw, hdw]
  cases h : stoiAfterWs (List.dropWhile isSpaceC s) with
  | none => rfl
  | some vp =>
    simp only [Option.map_some', List.length_cons, Option.some.injEq, Prod.mk.injEq, true_and]
    omega

/-- The same one-space shift for `stof`. -/
theorem stofCore_space (s : List Char) :
    stofCore (' ' :: s) = (stofCore s).map (fun vp => (vp.1, vp.2 + 1)) := by
  unfold stofCore
  have htw : List.takeWhile isSpaceC (' ' :: s) = ' ' :: List.takeWhile isSpaceC s := rfl
  have hdw : List.dropWhile isSpaceC (' ' :: s) = List.dropWhile isSpaceC s := rfl
  rw [htw, hdw]
  cases h : stofAfterWs (List.dropWhile isSpaceC s) with
  | none => rfl
  | some vp =>
    simp only [Option.map_some', List.length_cons, Option.some.injEq, Prod.mk.injEq, true_and]
    omega

/-- No whitespace character is a digit or the decimal dot. -/
theorem isSpaceC_not_digit_dot (c : Char) (h : isSpaceC c = true) :
    c.isDigit = false ∧ c ≠ '.' := by
  unfold isSpaceC at h
  simp only [Bool.or_eq_true, beq_iff_eq] at h
  rcases h with ((((rfl | rfl) | rfl) | rfl) | rfl) | rfl <;> exact ⟨by decide, by decide⟩

/-- A successful `stoiAfterWs` parse consuming its whole input ends on a
digit. -/
theorem stoiAfterWs_full_last (rest : List Char) (v : Int)
    (h : stoiAfterWs rest = some (v, rest.length)) :
    ∃ c, rest.getLast? = some c ∧ c.isDigit = true := by
  obtain ⟨pre, hplen, hpre⟩ := signSplit_pre rest
  rcases hss : signSplit rest with ⟨sg, sgLen, rest2⟩
  rw [hss] at hplen hpre
  unfold stoiAfterWs at h
  rw [hss] at h
  simp only at h hplen hpre
  by_cases hds : (List.takeWhile Char.isDigit rest2).isEmpty
  · rw [if_pos hds] at h
    exact absurd h (by simp)
  · rw [if_neg hds] at h
    simp only [Option.some.injEq, Prod.mk.injEq] at h
    obtain ⟨hv, hpos⟩ := h
    have hne : List.takeWhile Char.isDigit rest2 ≠ [] := by
      simpa [List.isEmpty_iff] using hds
    have hsplit :
        List.takeWhile Char.isDigit rest2 ++ List.dropWhile Char.isDigit rest2 = rest2 :=
      List.takeWhile_append_dropWhile Char.isDigit rest2
    have hlen : rest.length = pre.length + rest2.length := by
      rw [← hpre, List.length_append]
    have hlen2 : rest2.length = (List.takeWhile Char.isDigit rest2).length
        + (List.dropWhile Char.isDigit rest2).length := by
      conv_lhs => rw [← hsplit]
      rw [List.length_append]
    have htl : List.dropWhile Char.isDigit rest2 = [] := by
      apply List.eq_nil_of_length_eq_zero
      omega
    have hr2 : rest2 = List.takeWhile Char.isDigit rest2 := by
      conv_lhs => rw [← hsplit]
      rw [htl, List.append_nil]
    have hne2 : rest2 ≠ [] := by
      intro hcon
      rw [hcon] at hne
      exact hne rfl
    refine ⟨rest2.getLast hne2, ?_, ?_⟩
    · rw [← hpre, List.getLast?_append_of_ne_nil pre hne2]
      exact List.getLast?_eq_getLast_of_ne_nil hne2
    · have hmem2 : rest2.getLast hne2 ∈ List.takeWhile Char.isDigit rest2 := by
        rw [← hr2]
        exact List.getLast_mem hne2
      exact List.mem_takeWhile_imp hmem2

/-- A successful `stoiCore` parse consuming its whole input ends on a
digit. -/
theorem stoiCore_full_last (s : List Char) (v : Int)
    (h : stoiCore s = some (v, s.length)) :
    ∃ c, s.getLast? = some c ∧ c.isDigit = true := by
  unfold stoiCore at h
  cases hA : stoiAfterWs (List.dropWhile isSpaceC s) with
  | none => rw [hA] at h; exact absurd h (by simp)
  | some vp =>
    obtain ⟨v1, p1⟩ := vp
    rw [hA] at h
    simp only [Option.map_some', Option.some.injEq, Prod.mk.injEq] at h
    obtain ⟨hv, hpos⟩ := h
    have hsplit : List.takeWhile isSpaceC s ++ List.dropWhile isSpaceC s = s :=
      List.takeWhile_append_dropWhile isSpaceC s
    have hlen : s.length = (List.takeWhile isSpaceC s).length
        + (List.dropWhile isSpaceC s).length := by
      conv_lhs => rw [← hsplit]
      rw [List.length_append]
    have hfull : p1 = (List.dropWhile isSpaceC s).length := by omega
    subst hfull
    obtain ⟨c, hc, hdig⟩ := stoiAfterWs_full_last _ _ hA
    have hdne : List.dropWhile isSpaceC s ≠ [] := by
      intro hcon
      rw [hcon, show stoiAfterWs [] = none from rfl] at hA
      exact Option.noConfusion hA
    refine ⟨c, ?_, hdig⟩
    conv_lhs => rw [← hsplit]
    rw [List.getLast?_append_of_ne_nil _ hdne]
    exact hc

/-- A nonempty input wholly consumed by `expPart` ends on a digit. -/
theorem expPart_full (l : List Char) (hne : l ≠ []) (h : (expPart l).2 = l.length) :
    ∃ c, l.getLast? = some c ∧ c.isDigit = true := by
  cases l with
  | nil => exact absurd rfl hne
  | cons c0 r =>
    simp only [expPart] at h
    by_cases he : (c0 == 'e' || c0 == 'E') = true
    · rw [if_pos he] at h
      obtain ⟨pre, hplen, hpre⟩ := signSplit_pre r
      rcases hss : signSplit r with ⟨sg, sgLen, r2⟩
      rw [hss] at h hplen hpre
      simp only at h hplen hpre
      by_cases heds : (List.takeWhile Char.isDigit r2).isEmpty
      · rw [if_pos heds] at h
        have h2 : (0 : Nat) = r.length + 1 := h
        omega
      · rw [if_neg heds] at h
        have h2 : 1 + sgLen + (List.takeWhile Char.isDigit r2).length = r.length + 1 := h
        have hne2 : List.takeWhile Char.isDigit r2 ≠ [] := by
          simpa [List.isEmpty_iff] using heds
        have hsplit : List.takeWhile Char.isDigit r2 ++ List.dropWhile Char.isDigit r2 = r2 :=
          List.takeWhile_append_dropWhile Char.isDigit r2
        have hlr : r.length = pre.length + r2.length := by
          rw [← hpre, List.length_append]
        have hlr2 : r2.length = (List.takeWhile Char.isDigit r2).length
            + (List.dropWhile Char.isDigit r2).length := by
          conv_lhs => rw [← hsplit]
          rw [List.length_append]
        have htl : List.dropWhile Char.isDigit r2 = [] := by
          apply List.eq_nil_of_length_eq_zero
          omega
        have hr2 : r2 = List.takeWhile Char.isDigit r2 := by
          conv_lhs => rw [← hsplit]
          rw [htl, List.append_nil]
        have hne3 : r2 ≠ [] := by
          intro hcon
          rw [hcon] at hne2
          exact hne2 rfl
        have hrne : r ≠ [] := by
          intro hcon
          rw [hcon] at hpre
          exact hne3 (List.append_eq_nil.mp hpre).2
        refine ⟨r2.getLast hne3, ?_, ?_⟩
        · show (c0 :: r).getLast? = _
          rw [← List.singleton_append, List.getLast?_append_of_ne_nil _ hrne,
            ← hpre, List.getLast?_append_of_ne_nil pre hne3]
          exact List.getLast?_eq_getLast_of_ne_nil hne3
        · have hmem2 : r2.getLast hne3 ∈ List.takeWhile Char.isDigit r2 := by
            rw [← hr2]
            exact List.getLast_mem hne3
          exact List.mem_takeWhile_imp hmem2
    · rw [if_neg he] at h
      have h2 : (0 : Nat) = r.length + 1 := h
      omega

/-- `fracSplit` decomposition: either there is no dot (nothing consumed)
or the input is the dot, the fraction digits and the remainder. -/
theorem fracSplit_decomp (l : List Char) :
    ((fracSplit l).1 = [] ∧ (fracSplit l).2.1 = 0 ∧ (fracSplit l).2.2 = l)
    ∨ (l = '.' :: ((fracSplit l).1 ++ (fracSplit l).2.2)
        ∧ (fracSplit l).2.1 = 1 + (fracSplit l).1.length
        ∧ ∀ c ∈ (fracSplit l).1, c.isDigit = true) := by
  unfold fracSplit
  split
  · right
    refine ⟨?_, rfl, ?_⟩
    · rw [List.takeWhile_append_dropWhile]
    · intro c hc
      exact List.mem_takeWhile_imp hc
  · left
    exact ⟨rfl, rfl, rfl⟩

/-- A successful `stofAfterWs` parse consuming its whole input ends on a
digit or on the decimal dot. -/
theorem stofAfterWs_full_last (rest : List Char) (v : Rat)
    (h : stofAfterWs rest = some (v, rest.length)) :
    ∃ c, rest.getLast? = some c ∧ (c.isDigit = true ∨ c = '.') := by
  obtain ⟨pre, hplen, hpre⟩ := signSplit_pre rest
  rcases hss : signSplit rest with ⟨sg, sgLen, rest2⟩
  rw [hss] at hplen hpre
  unfold stofAfterWs at h
  rw [hss] at h
  simp only at h hplen hpre
  rcases hfs : fracSplit (List.dropWhile Char.isDigit rest2) with ⟨fds, fLen, rest4⟩
  have hd := fracSplit_decomp (List.dropWhile Char.isDigit rest2)
  rw [hfs] at h hd
  simp only at h hd
  by_cases hmant : (List.takeWhile Char.isDigit rest2).isEmpty = true ∧ fds.isEmpty = true
  · rw [if_pos hmant] at h
    exact Option.noConfusion h
  · rw [if_neg hmant] at h
    rcases hep : expPart rest4 with ⟨eV, eL⟩
    rw [hep] at h
    simp only [Option.some.injEq, Prod.mk.injEq] at h
    obtain ⟨hv, hpos⟩ := h
    have hsplit2 :
        List.takeWhile Char.isDigit rest2 ++ List.dropWhile Char.isDigit rest2 = rest2 :=
      List.takeWhile_append_dropWhile Char.isDigit rest2
    have hlen1 : rest.length = pre.length + rest2.length := by
      rw [← hpre, List.length_append]
    have hlen2 : rest2.length = (List.takeWhile Char.isDigit rest2).length
        + (List.dropWhile Char.isDigit rest2).length := by
      conv_lhs => rw [← hsplit2]
      rw [List.length_append]
    rcases hd with ⟨hfds, hflen, hr4⟩ | ⟨hdw, hflen, hdig⟩
    · subst hfds
      subst hflen
      subst hr4
      by_cases hr40 : List.dropWhile Char.isDigit rest2 = []
      · have hids : List.takeWhile Char.isDigit rest2 ≠ [] := by
          intro hcon
          exact hmant ⟨by rw [hcon]; rfl, rfl⟩
        have hr2 : rest2 = List.takeWhile Char.isDigit rest2 := by
          conv_lhs => rw [← hsplit2]
          rw [hr40, List.append_nil]
        have hne2 : rest2 ≠ [] := by
          intro hcon
          rw [hcon] at hids
          exact hids rfl
        refine ⟨rest2.getLast hne2, ?_, Or.inl ?_⟩
        · rw [← hpre, List.getLast?_append_of_ne_nil pre hne2]
          exact List.getLast?_eq_getLast_of_ne_nil hne2
        · have hmem2 : rest2.getLast hne2 ∈ List.takeWhile Char.isDigit rest2 := by
            rw [← hr2]
            exact List.getLast_mem hne2
          exact List.mem_takeWhile_imp hmem2
      · have hfull4 : (expPart (List.dropWhile Char.isDigit rest2)).2
            = (List.dropWhile Char.isDigit rest2).length := by
          rw [hep]
          show eL = _
          omega
        obtain ⟨c, hc, hdig4⟩ := expPart_full _ hr40 hfull4
        have hne2 : rest2 ≠ [] := fun hcon => hr40 (by rw [hcon]; rfl)
        refine ⟨c, ?_, Or.inl hdig4⟩
        rw [← hpre, List.getLast?_append_of_ne_nil pre hne2]
        conv_lhs => rw [← hsplit2]
        rw [List.getLast?_append_of_ne_nil _ hr40]
        exact hc
    · subst hflen
      have hdwlen : (List.dropWhile Char.isDigit rest2).length
          = 1 + fds.length + rest4.length := by
        rw [hdw]
        simp only [List.length_cons, List.length_append]
        omega
      by_cases hr40 : rest4 = []
      · subst hr40
        rw [List.append_nil] at hdw
        have hdwne : List.dropWhile Char.isDigit rest2 ≠ [] := by
          rw [hdw]
          exact List.cons_ne_nil _ _
        have hne2 : rest2 ≠ [] := fun hcon => hdwne (by rw [hcon]; rfl)
        by_cases hfds0 : fds = []
        · subst hfds0
          refine ⟨'.', ?_, Or.inr rfl⟩
          rw [← hpre, List.getLast?_append_of_ne_nil pre hne2]
          conv_lhs => rw [← hsplit2]
          rw [List.getLast?_append_of_ne_nil _ hdwne, hdw]
          rfl
        · refine ⟨fds.getLast hfds0, ?_, Or.inl (hdig _ (List.getLast_mem hfds0))⟩
          rw [← hpre, List.getLast?_append_of_ne_nil pre hne2]
          conv_lhs => rw [← hsplit2]
          rw [List.getLast?_append_of_ne_nil _ hdwne, hdw, ← List.singleton_append,
            List.getLast?_append_of_ne_nil _ hfds0]
          exact List.getLast?_eq_getLast_of_ne_nil hfds0
      · have hfull4 : (expPart rest4).2 = rest4.length := by
          rw [hep]
          show eL = _
          omega
        obtain ⟨c, hc, hdig4⟩ := expPart_full _ hr40 hfull4
        have hfrne : fds ++ rest4 ≠ [] := by
          intro hcon
          exact hr40 (List.append_eq_nil.mp hcon).2
        have hdwne : List.dropWhile Char.isDigit rest2 ≠ [] := by
          rw [hdw]
          exact List.cons_ne_nil _ _
        have hne2 : rest2 ≠ [] := fun hcon => hdwne (by rw [hcon]; rfl)
        refine ⟨c, ?_, Or.inl hdig4⟩
        rw [← hpre, List.getLast?_append_of_ne_nil pre hne2]
        conv_lhs => rw [← hsplit2]
        rw [List.getLast?_append_of_ne_nil _ hdwne, hdw, ← List.singleton_append,
          List.getLast?_append_of_ne_nil _ hfrne, List.getLast?_append_of_ne_nil _ hr40]
        exact hc

/-- A successful `stofCore` parse consuming its whole input ends on a
digit or on the decimal dot. -/
theorem stofCore_full_last (s : List Char) (v : Rat)
    (h : stofCore s = some (v, s.length)) :
    ∃ c, s.getLast? = some c ∧ (c.isDigit = true ∨ c = '.') := by
  unfold stofCore at h
  cases hA : stofAfterWs (List.dropWhile isSpaceC s) with
  | none => rw [hA] at h; exact absurd h (by simp)
  | some vp =>
    obtain ⟨v1, p1⟩ := vp
    rw [hA] at h
    simp only [Option.map_some', Option.some.injEq, Prod.mk.injEq] at h
    obtain ⟨hv, hpos⟩ := h
    have hsplit : List.takeWhile isSpaceC s ++ List.dropWhile isSpaceC s = s :=
      List.takeWhile_append_dropWhile isSpaceC s
    have hlen : s.length = (List.takeWhile isSpaceC s).length
        + (List.dropWhile isSpaceC s).length := by
      conv_lhs => rw [← hsplit]
      rw [List.length_append]
    have hfull : p1 = (List.dropWhile isSpaceC s).length := by omega
    subst hfull
    obtain ⟨c, hc, hdig⟩ := stofAfterWs_full_last _ _ hA
    have hdne : List.dropWhile isSpaceC s ≠ [] := by
      intro hcon
      rw [hcon, show stofAfterWs [] = none from rfl] at hA
      exact Option.noConfusion hA
    refine ⟨c, ?_, hdig⟩
    conv_lhs => rw [← hsplit]
    rw [List.getLast?_append_of_ne_nil _ hdne]
    exact hc

/-- `std::stoi` never consumes a final whitespace character: a raw value
ending in whitespace always fails the whole-string-consumption check. -/
theorem stoi_no_trailing (u : List Char) (cw : Char) (hws : isSpaceC cw = true)
    (v : Int) (pos : Nat) (h : stoi (String.mk (u ++ [cw])) = some (v, pos)) :
    pos ≠ (u ++ [cw]).length := by
  intro hfull
  subst hfull
  unfold stoi at h
  cases hC : stoiCore (String.mk (u ++ [cw])).data with
  | none => rw [hC] at h; exact Option.noConfusion h
  | some vp =>
    obtain ⟨v1, p1⟩ := vp
    rw [hC] at h
    simp only at h
    by_cases hr : v1 < intMin ∨ intMax < v1
    · rw [if_pos hr] at h
      exact Option.noConfusion h
    · rw [if_neg hr] at h
      simp only [Option.some.injEq, Prod.mk.injEq] at h
      obtain ⟨hv1, hp1⟩ := h
      subst hv1
      subst hp1
      have hC2 : stoiCore (u ++ [cw]) = some (v1, (u ++ [cw]).length) := hC
      obtain ⟨c, hc, hdig⟩ := stoiCore_full_last _ _ hC2
      rw [List.getLast?_append_of_ne_nil u (List.cons_ne_nil cw [])] at hc
      have hcw : cw = c := by simpa using hc
      subst hcw
      obtain ⟨hnd, _⟩ := isSpaceC_not_digit_dot cw hws
      rw [hnd] at hdig
      exact Bool.noConfusion hdig

/-- `std::stof` never consumes a final whitespace character either. -/
theorem stof_no_trailing (u : List Char) (cw : Char) (hws : isSpaceC cw = true)
    (v : Rat) (pos : Nat) (h : stof (String.mk (u ++ [cw])) = some (v, pos)) :
    pos ≠ (u ++ [cw]).length := by
  intro hfull
  subst hfull
  have hC2 : stofCore (u ++ [cw]) = some (v, (u ++ [cw]).length) := h
  obtain ⟨c, hc, hdig⟩ := stofCore_full_last _ _ hC2
  rw [List.getLast?_append_of_ne_nil u (List.cons_ne_nil cw [])] at hc
  have hcw : cw = c := by simpa using hc
  subst hcw
  obtain ⟨hnd, hndot⟩ := isSpaceC_not_digit_dot cw hws
  rcases hdig with hdig | hdig
  · rw [hnd] at hdig
    exact Bool.noConfusion hdig
  · exact hndot hdig

/-- The left-to-right recursion of the `Context` constructor computes the
cursor-based scan of the spec, at every cursor position. -/
theorem bindCursorSpec_eq_drop :
    ∀ (n : Nat) (args : List String) (i : Nat), args.length - i ≤ n →
      bindCursorSpec args i = bindArgs (args.drop i) := by
  intro n
  induction n with
  | zero =>
    intro args i hle
    rw [bindCursorSpec, dif_neg (by omega), List.drop_eq_nil_of_le (by omega)]
    rfl
  | succ n ih =>
    intro args i hle
    by_cases h : i < args.length
    · rw [bindCursorSpec, dif_pos h, List.drop_eq_getElem_cons h]
      by_cases hm : isMarker args[i]
      · rw [if_pos hm]
        by_cases h2 : i + 1 < args.length
        · rw [dif_pos h2, List.drop_eq_getElem_cons h2]
          by_cases hm2 : isMarker args[i + 1]
          · rw [if_pos hm2]
            show _ = bindArgs (_ :: _ :: _)
            rw [bindArgs, if_pos hm, if_pos hm2,
              ← List.drop_eq_getElem_cons h2, ih args (i + 1) (by omega)]
          · rw [if_neg hm2]
            show _ = bindArgs (_ :: _ :: _)
            rw [bindArgs, if_pos hm, if_neg hm2, ih args (i + 2) (by omega)]
        · rw [dif_neg h2]
          have hnil : args.drop (i + 1) = [] := List.drop_eq_nil_of_le (by omega)
          rw [hnil]
          show _ = bindArgs [_]
          rw [bindArgs, if_pos hm, ih args (i + 1) (by omega), hnil]
          rfl
      · rw [if_neg hm]
        by_cases h2 : i + 1 < args.length
        · rw [List.drop_eq_getElem_cons h2]
          show _ = bindArgs (_ :: _ :: _)
          rw [bindArgs, if_neg hm, ← List.drop_eq_getElem_cons h2,
            ih args (i + 1) (by omega)]
        · have hnil : args.drop (i + 1) = [] := List.drop_eq_nil_of_le (by omega)
          rw [hnil]
          show _ = bindArgs [_]
          rw [bindArgs, if_neg hm, ih args (i + 1) (by omega), hnil]
          rfl
    · rw [bindCursorSpec, dif_neg h, List.drop_eq_nil_of_le (by omega)]
      rfl

/-- C1: the Context constructor's Argument Binder scans left to right
exactly as the cursor description states: a token is an option marker iff
its first two characters are `-`, `-`; a non-marker token not consumed as
a value is silently ignored; a marker binds the next token as its value
when that token exists and is not itself a marker (cursor advances by
two), otherwise binds the literal `"true"` (cursor advances by one); and
binding `["--a", "--b", "1"]` yields `a="true"` and `b="1"`. -/
theorem binder_matches_cursor_spec :
    (∀ args : List String, (Context.ofArgs args).options_ = bindCursorSpec args 0)
    ∧ (∀ s : String, isMarker s = true ↔ s.data.take 2 = ['-', '-'])
    ∧ mapFind (Context.ofArgs ["--a", "--b", "1"]).options_ "a" = some "true"
    ∧ mapFind (Context.ofArgs ["--a", "--b", "1"]).options_ "b" = some "1" := by
  refine ⟨fun args => ?_, fun s => ?_, by decide, by decide⟩
  · show bindArgs args = bindCursorSpec args 0
    rw [bindCursorSpec_eq_drop args.length args 0 (by omega), List.drop_zero]
  · simp [isMarker]

/-- C2: for a name absent from the Raw Option Store, `get_option<bool>`
returns `false` and never fails in either form (so the defaulted form's
default is unused for an absent bool); for every non-bool type the
non-defaulted accessor throws `MissingRequiredOptionException` and the
defaulted accessor returns the caller-supplied default. -/
theorem absent_option_policy :
    ∀ (ctx : Context) (name : String), mapFind ctx.options_ name = none →
      ctx.get_option_bool name = .ok false
      ∧ (∀ db : Bool, ctx.get_option_bool_d name db = .ok (false, []))
      ∧ ctx.get_option_int name = .error (.missingRequiredOption name)
      ∧ (∀ di : Int, ctx.get_option_int_d name di = .ok (di, []))
      ∧ ctx.get_option_float name = .error (.missingRequiredOption name)
      ∧ (∀ df : Rat, ctx.get_option_float_d name df = .ok (df, []))
      ∧ ctx.get_option_string name = .error (.missingRequiredOption name)
      ∧ (∀ ds : String, ctx.get_option_string_d name ds = .ok (ds, [])) := by
  intro ctx name habs
  refine ⟨?_, fun db => ?_, ?_, fun di => ?_, ?_, fun df => ?_, ?_, fun ds => ?_⟩ <;>
    simp [Context.get_option_bool, Context.get_option_bool_d, Context.get_option_int,
      Context.get_option_int_d, Context.get_option_float, Context.get_option_float_d,
      Context.get_option_string, Context.get_option_string_d, catchDefault, habs]

theorem absent_option_policy_witness :
    (Context.ofArgs []).get_option_bool "quiet" = .ok false
    ∧ (Context.ofArgs []).get_option_bool_d "quiet" true = .ok (false, [])
    ∧ (Context.ofArgs []).get_option_int "x" = .error (.missingRequiredOption "x")
    ∧ (Context.ofArgs []).get_option_int_d "x" 7 = .ok (7, []) := by
  have h1 := absent_option_policy (Context.ofArgs []) "quiet" (by decide)
  have h2 := absent_option_policy (Context.ofArgs []) "x" (by decide)
  exact ⟨h1.1, h1.2.1 true, h2.2.2.1, h2.2.2.2.1 7⟩

/-- C6: for a present raw value, `get_option<bool>` matches
case-sensitively: the four truthy strings give `true`, the four falsy
strings give `false`, and anything else throws `BadOptionTypeException`. -/
theorem bool_coercion_sets :
    ∀ (ctx : Context) (name raw : String), mapFind ctx.options_ name = some raw →
      (raw = "true" ∨ raw = "1" ∨ raw = "on" ∨ raw = "yes" →
        ctx.get_option_bool name = .ok true)
      ∧ (raw = "false" ∨ raw = "0" ∨ raw = "off" ∨ raw = "no" →
        ctx.get_option_bool name = .ok false)
      ∧ (¬(raw = "true" ∨ raw = "1" ∨ raw = "on" ∨ raw = "yes") →
        ¬(raw = "false" ∨ raw = "0" ∨ raw = "off" ∨ raw = "no") →
        ctx.get_option_bool name = .error (.badOptionType name "bool")) := by
  intro ctx name raw hfind
  unfold Context.get_option_bool
  rw [hfind]
  refine ⟨?_, ?_, ?_⟩
  · rintro (rfl | rfl | rfl | rfl) <;> rfl
  · rintro (rfl | rfl | rfl | rfl) <;> rfl
  · intro ht hf
    have h1 : ¬ ((raw == "true" || raw == "1" || raw == "on" || raw == "yes") = true) := by
      simp only [Bool.or_eq_true, beq_iff_eq]
      tauto
    have h2 : ¬ ((raw == "false" || raw == "0" || raw == "off" || raw == "no") = true) := by
      simp only [Bool.or_eq_true, beq_iff_eq]
      tauto
    show (if (raw == "true" || raw == "1" || raw == "on" || raw == "yes") = true then
        Except.ok true
      else if (raw == "false" || raw == "0" || raw == "off" || raw == "no") = true then
        Except.ok false
      else Except.error (CliError.badOptionType name "bool"))
      = Except.error (CliError.badOptionType name "bool")
    rw [if_neg h1, if_neg h2]

theorem bool_coercion_sets_witness :
    (Context.ofArgs ["--v", "yes"]).get_option_bool "v" = .ok true
    ∧ (Context.ofArgs ["--v", "no"]).get_option_bool "v" = .ok false
    ∧ (Context.ofArgs ["--v", "True"]).get_option_bool "v" =
        .error (.badOptionType "v" "bool") := by
  refine ⟨?_, ?_, ?_⟩
  · exact (bool_coercion_sets (Context.ofArgs ["--v", "yes"]) "v" "yes" (by decide)).1
      (Or.inr (Or.inr (Or.inr rfl)))
  · exact (bool_coercion_sets (Context.ofArgs ["--v", "no"]) "v" "no" (by decide)).2.1
      (Or.inr (Or.inr (Or.inr rfl)))
  · exact (bool_coercion_sets (Context.ofArgs ["--v", "True"]) "v" "True" (by decide)).2.2
      (by decide) (by decide)

/-- `get_option<int>` on a present raw value, written as an explicit
parse-then-check expression. -/
theorem get_option_int_of_find (ctx : Context) (name raw : String)
    (hfind : mapFind ctx.options_ name = some raw) :
    ctx.get_option_int name =
      match stoi raw with
      | none => .error (.badOptionType name "int")
      | some (v, pos) =>
        if pos = raw.data.length then .ok v else .error (.badOptionType name "int") := by
  unfold Context.get_option_int
  rw [hfind]

/-- `get_option<float>` on a present raw value, written as an explicit
parse-then-check expression. -/
theorem get_option_float_of_find (ctx : Context) (name raw : String)
    (hfind : mapFind ctx.options_ name = some raw) :
    ctx.get_option_float name =
      match stof raw with
      | none => .error (.badOptionType name "float")
      | some (v, pos) =>
        if pos = raw.data.length then .ok v else .error (.badOptionType name "float") := by
  unfold Context.get_option_float
  rw [hfind]

/-- The one-space shift at the `stoi` level (range check unchanged). -/
theorem stoi_space (raw : String) :
    stoi (String.mk (' ' :: raw.data)) = (stoi raw).map (fun vp => (vp.1, vp.2 + 1)) := by
  unfold stoi
  have hd : (String.mk (' ' :: raw.data)).data = ' ' :: raw.data := rfl
  rw [hd, stoiCore_space]
  cases h : stoiCore raw.data with
  | none => rfl
  | some vp =>
    obtain ⟨v, p⟩ := vp
    simp only [Option.map_some']
    by_cases hr : v < intMin ∨ intMax < v
    · rw [if_pos hr, if_pos hr]
      rfl
    · rw [if_neg hr, if_neg hr]
      rfl

/-- The one-space shift at the `stof` level. -/
theorem stof_space (raw : String) :
    stof (String.mk (' ' :: raw.data)) = (stof raw).map (fun vp => (vp.1, vp.2 + 1)) := by
  show stofCore (' ' :: raw.data) = _
  rw [stofCore_space]
  rfl

/-- C3: for a present raw value, `get_option<int>` parses the string as a
base-10 signed integer and requires the entire string to be consumed:
`"12"` returns `12`, while `"12abc"` — or any string whose parse fails or
stops early — throws `BadOptionTypeException`; `get_option<float>`
applies the same whole-string-consumption rule. -/
theorem numeric_whole_string_rule :
    ∀ (ctx : Context) (name raw : String), mapFind ctx.options_ name = some raw →
      (stoi raw = none → ctx.get_option_int name = .error (.badOptionType name "int"))
      ∧ (∀ v pos, stoi raw = some (v, pos) → pos ≠ raw.data.length →
          ctx.get_option_int name = .error (.badOptionType name "int"))
      ∧ (∀ v, stoi raw = some (v, raw.data.length) → ctx.get_option_int name = .ok v)
      ∧ (raw = "12" → ctx.get_option_int name = .ok 12)
      ∧ (raw = "12abc" → ctx.get_option_int name = .error (.badOptionType name "int"))
      ∧ (stof raw = none → ctx.get_option_float name = .error (.badOptionType name "float"))
      ∧ (∀ v pos, stof raw = some (v, pos) → pos ≠ raw.data.length →
          ctx.get_option_float name = .error (.badOptionType name "float"))
      ∧ (∀ v, stof raw = some (v, raw.data.length) → ctx.get_option_float name = .ok v) := by
  intro ctx name raw hfind
  rw [get_option_int_of_find ctx name raw hfind, get_option_float_of_find ctx name raw hfind]
  refine ⟨?_, ?_, ?_, ?_, ?_, ?_, ?_, ?_⟩
  · intro hn
    rw [hn]
  · intro v pos hs hne
    rw [hs]
    exact if_neg hne
  · intro v hs
    rw [hs]
    exact if_pos rfl
  · rintro rfl
    rfl
  · rintro rfl
    rfl
  · intro hn
    rw [hn]
  · intro v pos hs hne
    rw [hs]
    exact if_neg hne
  · intro v hs
    rw [hs]
    exact if_pos rfl

theorem numeric_whole_string_rule_witness :
    (Context.ofArgs ["--x", "12"]).get_option_int "x" = .ok 12
    ∧ (Context.ofArgs ["--x", "12abc"]).get_option_int "x" =
        .error (.badOptionType "x" "int")
    ∧ (Context.ofArgs ["--x", "12abc"]).get_option_float "x" =
        .error (.badOptionType "x" "float") := by
  refine ⟨?_, ?_, ?_⟩
  · exact (numeric_whole_string_rule _ "x" "12" (by decide)).2.2.2.1 rfl
  · exact (numeric_whole_string_rule _ "x" "12abc" (by decide)).2.2.2.2.1 rfl
  · exact (numeric_whole_string_rule _ "x" "12abc" (by decide)).2.2.2.2.2.2.1
      12 2 (by decide) (by decide)

/-- C10: the numeric accessors tolerate leading whitespace and an explicit
sign but not trailing whitespace: the consumed-position check counts
skipped leading whitespace as consumed, so ` 12` and `+12` read as `12`,
while a raw value ending in a whitespace character (such as `12 `) throws
`BadOptionTypeException`; the same asymmetry holds for `get_option<float>`. -/
theorem numeric_whitespace_asymmetry :
    (∀ (ctx1 ctx2 : Context) (name1 name2 raw : String) (v : Int),
        mapFind ctx1.options_ name1 = some raw →
        mapFind ctx2.options_ name2 = some (String.mk (' ' :: raw.data)) →
        (ctx1.get_option_int name1 = .ok v ↔ ctx2.get_option_int name2 = .ok v))
    ∧ (∀ (ctx : Context) (name : String) (u : List Char) (cw : Char),
        isSpaceC cw = true →
        mapFind ctx.options_ name = some (String.mk (u ++ [cw])) →
        ctx.get_option_int name = .error (.badOptionType name "int"))
    ∧ (∀ (ctx1 ctx2 : Context) (name1 name2 raw : String) (v : Rat),
        mapFind ctx1.options_ name1 = some raw →
        mapFind ctx2.options_ name2 = some (String.mk (' ' :: raw.data)) →
        (ctx1.get_option_float name1 = .ok v ↔ ctx2.get_option_float name2 = .ok v))
    ∧ (∀ (ctx : Context) (name : String) (u : List Char) (cw : Char),
        isSpaceC cw = true →
        mapFind ctx.options_ name = some (String.mk (u ++ [cw])) →
        ctx.get_option_float name = .error (.badOptionType name "float"))
    ∧ (Context.ofArgs ["--x", " 12"]).get_option_int "x" = .ok 12
    ∧ (Context.ofArgs ["--x", "+12"]).get_option_int "x" = .ok 12
    ∧ (Context.ofArgs ["--x", " 12"]).get_option_float "x" = .ok 12
    ∧ (Context.ofArgs ["--x", "+12"]).get_option_float "x" = .ok 12 := by
  refine ⟨?_, ?_, ?_, ?_, by decide, by decide, by decide, by decide⟩
  · intro ctx1 ctx2 name1 name2 raw v h1 h2
    rw [get_option_int_of_find ctx1 name1 raw h1,
      get_option_int_of_find ctx2 name2 _ h2, stoi_space]
    cases hs : stoi raw with
    | none =>
      exact iff_of_false (fun hcon => Except.noConfusion hcon)
        (fun hcon => Except.noConfusion hcon)
    | some vp =>
      obtain ⟨v0, p0⟩ := vp
      simp only [Option.map_some']
      have hlen : (String.mk (' ' :: raw.data)).data.length = raw.data.length + 1 := rfl
      rw [hlen]
      by_cases hp : p0 = raw.data.length
      · rw [if_pos hp, if_pos (by omega)]
      · rw [if_neg hp, if_neg (by omega)]
        exact iff_of_false (fun hcon => Except.noConfusion hcon)
          (fun hcon => Except.noConfusion hcon)
  · intro ctx name u cw hws hfind
    rw [get_option_int_of_find ctx name _ hfind]
    cases hs : stoi (String.mk (u ++ [cw])) with
    | none => rfl
    | some vp =>
      obtain ⟨v0, p0⟩ := vp
      have hne := stoi_no_trailing u cw hws v0 p0 hs
      have hlen : (String.mk (u ++ [cw])).data.length = (u ++ [cw]).length := rfl
      rw [hlen]
      exact if_neg hne
  · intro ctx1 ctx2 name1 name2 raw v h1 h2
    rw [get_option_float_of_find ctx1 name1 raw h1,
      get_option_float_of_find ctx2 name2 _ h2, stof_space]
    cases hs : stof raw with
    | none =>
      exact iff_of_false (fun hcon => Except.noConfusion hcon)
        (fun hcon => Except.noConfusion hcon)
    | some vp =>
      obtain ⟨v0, p0⟩ := vp
      simp only [Option.map_some']
      have hlen : (String.mk (' ' :: raw.data)).data.length = raw.data.length + 1 := rfl
      rw [hlen]
      by_cases hp : p0 = raw.data.length
      · rw [if_pos hp, if_pos (by omega)]
      · rw [if_neg hp, if_neg (by omega)]
        exact iff_of_false (fun hcon => Except.noConfusion hcon)
          (fun hcon => Except.noConfusion hcon)
  · intro ctx name u cw hws hfind
    rw [get_option_float_of_find ctx name _ hfind]
    cases hs : stof (String.mk (u ++ [cw])) with
    | none => rfl
    | some vp =>
      obtain ⟨v0, p0⟩ := vp
      have hne := stof_no_trailing u cw hws v0 p0 hs
      have hlen : (String.mk (u ++ [cw])).data.length = (u ++ [cw]).length := rfl
      rw [hlen]
      exact if_neg hne

theorem numeric_whitespace_asymmetry_witness :
    ((Context.ofArgs ["--x", "12"]).get_option_int "x" = .ok 12 ↔
      (Context.ofArgs ["--x", " 12"]).get_option_int "x" = .ok 12)
    ∧ (Context.ofArgs ["--y", "12 "]).get_option_int "y" =
        .error (.badOptionType "y" "int")
    ∧ (Context.ofArgs ["--y", "12 "]).get_option_float "y" =
        .error (.badOptionType "y" "float") := by
  refine ⟨numeric_whitespace_asymmetry.1 _ _ "x" "x" "12" 12 (by decide) (by decide),
    numeric_whitespace_asymmetry.2.1 _ "y" "12".data ' ' (by decide) (by decide),
    numeric_whitespace_asymmetry.2.2.2.1 _ "y" "12".data ' ' (by decide) (by decide)⟩

/-- Appending a fresh binding makes it visible to `mapFind`. -/
theorem mapFind_append_right {α : Type} (m : List (String × α)) (k : String) (v : α)
    (h : mapFind m k = none) : mapFind (m ++ [(k, v)]) k = some v := by
  induction m with
  | nil => simp [mapFind]
  | cons p r ih =>
    obtain ⟨k1, v1⟩ := p
    rw [List.cons_append]
    simp only [mapFind] at h ⊢
    by_cases hk : k1 = k
    · rw [if_pos hk] at h
      exact Option.noConfusion h
    · rw [if_neg hk] at h ⊢
      exact ih h

/-- `get_option<bool>` on a present raw value, written as an explicit
truthy/falsy test. -/
theorem get_option_bool_of_find (ctx : Context) (name raw : String)
    (hfind : mapFind ctx.options_ name = some raw) :
    ctx.get_option_bool name =
      if (raw == "true" || raw == "1" || raw == "on" || raw == "yes") = true then .ok true
      else if (raw == "false" || raw == "0" || raw == "off" || raw == "no") = true then
        .ok false
      else .error (.badOptionType name "bool") := by
  unfold Context.get_option_bool
  rw [hfind]

/-- `get_option<std::string>` on a present raw value returns it verbatim. -/
theorem get_option_string_of_find (ctx : Context) (name raw : String)
    (hfind : mapFind ctx.options_ name = some raw) :
    ctx.get_option_string name = .ok raw := by
  unfold Context.get_option_string
  rw [hfind]

/-- `get_option<bool>` yields a value or a bool `BadOptionType`, nothing
else. -/
theorem get_option_bool_shape (ctx : Context) (name : String) :
    (∃ v, ctx.get_option_bool name = .ok v)
    ∨ ctx.get_option_bool name = .error (.badOptionType name "bool") := by
  cases hf : mapFind ctx.options_ name with
  | none =>
    refine Or.inl ⟨false, ?_⟩
    unfold Context.get_option_bool
    rw [hf]
  | some value =>
    rw [get_option_bool_of_find ctx name value hf]
    by_cases h1 : (value == "true" || value == "1" || value == "on" || value == "yes") = true
    · exact Or.inl ⟨true, if_pos h1⟩
    · rw [if_neg h1]
      by_cases h2 : (value == "false" || value == "0" || value == "off" || value == "no") = true
      · exact Or.inl ⟨false, if_pos h2⟩
      · exact Or.inr (if_neg h2)

/-- `get_option<int>` yields a value, `MissingRequiredOption`, or an int
`BadOptionType`, nothing else. -/
theorem get_option_int_shape (ctx : Context) (name : String) :
    (∃ v, ctx.get_option_int name = .ok v)
    ∨ ctx.get_option_int name = .error (.missingRequiredOption name)
    ∨ ctx.get_option_int name = .error (.badOptionType name "int") := by
  cases hf : mapFind ctx.options_ name with
  | none =>
    refine Or.inr (Or.inl ?_)
    unfold Context.get_option_int
    rw [hf]
  | some value =>
    rw [get_option_int_of_find ctx name value hf]
    cases hs : stoi value with
    | none => exact Or.inr (Or.inr rfl)
    | some vp =>
      obtain ⟨v, p⟩ := vp
      by_cases hp : p = value.data.length
      · exact Or.inl ⟨v, if_pos hp⟩
      · exact Or.inr (Or.inr (if_neg hp))

/-- `get_option<float>` yields a value, `MissingRequiredOption`, or a
float `BadOptionType`, nothing else. -/
theorem get_option_float_shape (ctx : Context) (name : String) :
    (∃ v, ctx.get_option_float name = .ok v)
    ∨ ctx.get_option_float name = .error (.missingRequiredOption name)
    ∨ ctx.get_option_float name = .error (.badOptionType name "float") := by
  cases hf : mapFind ctx.options_ name with
  | none =>
    refine Or.inr (Or.inl ?_)
    unfold Context.get_option_float
    rw [hf]
  | some value =>
    rw [get_option_float_of_find ctx name value hf]
    cases hs : stof value with
    | none => exact Or.inr (Or.inr rfl)
    | some vp =>
      obtain ⟨v, p⟩ := vp
      by_cases hp : p = value.data.length
      · exact Or.inl ⟨v, if_pos hp⟩
      · exact Or.inr (Or.inr (if_neg hp))

/-- `get_option<std::string>` yields a value or `MissingRequiredOption`. -/
theorem get_option_string_shape (ctx : Context) (name : String) :
    (∃ v, ctx.get_option_string name = .ok v)
    ∨ ctx.get_option_string name = .error (.missingRequiredOption name) := by
  cases hf : mapFind ctx.options_ name with
  | none =>
    refine Or.inr ?_
    unfold Context.get_option_string
    rw [hf]
  | some value => exact Or.inl ⟨value, get_option_string_of_find ctx name value hf⟩

/-- C4 counterexample: for a bool request, the defaulted accessor on an
absent option returns `false` silently — not the caller-supplied default
`true` — so "on an absent option it returns the default" fails. -/
theorem defaulted_absent_bool_counterexample :
    (Context.ofArgs []).get_option_bool_d "x" true = .ok (false, [])
    ∧ ¬ (Context.ofArgs []).get_option_bool_d "x" true = .ok (true, []) := by
  exact ⟨by decide, by decide⟩

/-- C4 (amended): the defaulted accessor never propagates
`MissingRequiredOption` or `BadOptionType` — it always returns a value.
On an absent option it returns silently, with no warning: the
caller-supplied default for the non-bool types, and `false` for bool
(`get_option<bool>` does not fail on absence, so the default is never
consulted).  On a present-but-malformed option it returns the default and
emits exactly one warning through the logging collaborator.  The
non-defaulted accessor returns its `Except` result unchanged, so both
failures propagate to the caller there. -/
theorem defaulted_accessor_policy :
    ∀ (ctx : Context) (name : String) (db : Bool) (di : Int) (df : Rat) (ds : String),
      ((∃ r, ctx.get_option_bool_d name db = .ok r)
      ∧ (∃ r, ctx.get_option_int_d name di = .ok r)
      ∧ (∃ r, ctx.get_option_float_d name df = .ok r)
      ∧ (∃ r, ctx.get_option_string_d name ds = .ok r))
      ∧ (mapFind ctx.options_ name = none →
          ctx.get_option_bool_d name db = .ok (false, [])
          ∧ ctx.get_option_int_d name di = .ok (di, [])
          ∧ ctx.get_option_float_d name df = .ok (df, [])
          ∧ ctx.get_option_string_d name ds = .ok (ds, []))
      ∧ (∀ n e, ctx.get_option_bool name = .error (.badOptionType n e) →
          ctx.get_option_bool_d name db = .ok (db, [.badOptionType n e]))
      ∧ (∀ n e, ctx.get_option_int name = .error (.badOptionType n e) →
          ctx.get_option_int_d name di = .ok (di, [.badOptionType n e]))
      ∧ (∀ n e, ctx.get_option_float name = .error (.badOptionType n e) →
          ctx.get_option_float_d name df = .ok (df, [.badOptionType n e]))
      ∧ (∀ n e, ctx.get_option_string name = .error (.badOptionType n e) →
          ctx.get_option_string_d name ds = .ok (ds, [.badOptionType n e])) := by
  intro ctx name db di df ds
  refine ⟨⟨?_, ?_, ?_, ?_⟩, ?_, ?_, ?_, ?_, ?_⟩
  · rcases get_option_bool_shape ctx name with ⟨v, hv⟩ | hv
    · exact ⟨(v, []), by unfold Context.get_option_bool_d catchDefault; rw [hv]⟩
    · exact ⟨(db, [.badOptionType name "bool"]),
        by unfold Context.get_option_bool_d catchDefault; rw [hv]⟩
  · rcases get_option_int_shape ctx name with ⟨v, hv⟩ | hv | hv
    · exact ⟨(v, []), by unfold Context.get_option_int_d catchDefault; rw [hv]⟩
    · exact ⟨(di, []), by unfold Context.get_option_int_d catchDefault; rw [hv]⟩
    · exact ⟨(di, [.badOptionType name "int"]),
        by unfold Context.get_option_int_d catchDefault; rw [hv]⟩
  · rcases get_option_float_shape ctx name with ⟨v, hv⟩ | hv | hv
    · exact ⟨(v, []), by unfold Context.get_option_float_d catchDefault; rw [hv]⟩
    · exact ⟨(df, []), by unfold Context.get_option_float_d catchDefault; rw [hv]⟩
    · exact ⟨(df, [.badOptionType name "float"]),
        by unfold Context.get_option_float_d catchDefault; rw [hv]⟩
  · rcases get_option_string_shape ctx name with ⟨v, hv⟩ | hv
    · exact ⟨(v, []), by unfold Context.get_option_string_d catchDefault; rw [hv]⟩
    · exact ⟨(ds, []), by unfold Context.get_option_string_d catchDefault; rw [hv]⟩
  · intro habs
    have hb : ctx.get_option_bool name = .ok false := by
      unfold Context.get_option_bool
      rw [habs]
    have hi : ctx.get_option_int name = .error (.missingRequiredOption name) := by
      unfold Context.get_option_int
      rw [habs]
    have hf : ctx.get_option_float name = .error (.missingRequiredOption name) := by
      unfold Context.get_option_float
      rw [habs]
    have hs : ctx.get_option_string name = .error (.missingRequiredOption name) := by
      unfold Context.get_option_string
      rw [habs]
    refine ⟨?_, ?_, ?_, ?_⟩
    · unfold Context.get_option_bool_d catchDefault
      rw [hb]
    · unfold Context.get_option_int_d catchDefault
      rw [hi]
    · unfold Context.get_option_float_d catchDefault
      rw [hf]
    · unfold Context.get_option_string_d catchDefault
      rw [hs]
  · intro n e hbad
    unfold Context.get_option_bool_d catchDefault
    rw [hbad]
  · intro n e hbad
    unfold Context.get_option_int_d catchDefault
    rw [hbad]
  · intro n e hbad
    unfold Context.get_option_float_d catchDefault
    rw [hbad]
  · intro n e hbad
    unfold Context.get_option_string_d catchDefault
    rw [hbad]

theorem defaulted_accessor_policy_witness :
    (Context.ofArgs []).get_option_int_d "x" 7 = .ok (7, [])
    ∧ (Context.ofArgs ["--x", "abc"]).get_option_int_d "x" 7 =
        .ok (7, [.badOptionType "x" "int"]) := by
  have h1 := (defaulted_accessor_policy (Context.ofArgs []) "x" true 7 0 "d").2.1 (by decide)
  have h2 := (defaulted_accessor_policy (Context.ofArgs ["--x", "abc"]) "x" true 7 0
      "d").2.2.2.1 "x" "int" (by decide)
  exact ⟨h1.2.1, h2⟩

/-- C7: `Command::execute` returns without invoking the handler whenever
the store contains the key `"help"` — a pure membership test, whatever
value is bound; otherwise, with no handler ever set it throws
`CommandHasNotHandlerException`; otherwise it invokes the handler on the
context, and a handler-thrown failure propagates unmodified. -/
theorem execute_policy :
    ∀ {ε : Type} (cmd : Command ε) (ctx : Context),
      (ctx.has_option "help" = true → cmd.execute ctx = .ok .helpShown)
      ∧ (∀ val, mapFind ctx.options_ "help" = some val → cmd.execute ctx = .ok .helpShown)
      ∧ (ctx.has_option "help" = false → cmd.handler_ = none →
          cmd.execute ctx = .error (.inl (.commandHasNotHandler cmd.name_)))
      ∧ (∀ h, ctx.has_option "help" = false → cmd.handler_ = some h → h ctx = .ok () →
          cmd.execute ctx = .ok .handlerCompleted)
      ∧ (∀ h e, ctx.has_option "help" = false → cmd.handler_ = some h →
          h ctx = .error e → cmd.execute ctx = .error (.inr e)) := by
  intro ε cmd ctx
  refine ⟨?_, ?_, ?_, fun h hh hs hr => ?_, fun h e hh hs hr => ?_⟩
  · intro hh
    unfold Command.execute
    rw [if_pos hh]
  · intro val hval
    unfold Command.execute
    rw [if_pos (by unfold Context.has_option; rw [hval]; rfl)]
  · intro hh hn
    unfold Command.execute
    rw [if_neg (by simp [hh]), hn]
  · simp [Command.execute, hh, hs, hr]
  · simp [Command.execute, hh, hs, hr]

theorem execute_policy_witness :
    (Command.mk (ε := Unit) "c" "" none []).execute (Context.ofArgs ["--help", "0"]) =
      .ok .helpShown
    ∧ (Command.mk (ε := Unit) "c" "" none []).execute (Context.ofArgs []) =
      .error (.inl (.commandHasNotHandler "c"))
    ∧ (Command.mk "c" "" (some (fun _ => Except.error ())) []).execute (Context.ofArgs []) =
      .error (.inr ()) := by
  refine ⟨?_, ?_, ?_⟩
  · exact (execute_policy (Command.mk "c" "" none []) (Context.ofArgs ["--help", "0"])).2.1
      "0" (by decide)
  · exact (execute_policy (Command.mk "c" "" none [])
      (Context.ofArgs [])).2.2.1 (by decide) rfl
  · exact (execute_policy (Command.mk "c" "" (some (fun _ => Except.error ())) [])
      (Context.ofArgs [])).2.2.2.2 (fun _ => Except.error ()) () (by decide) rfl rfl

/-- C5: `App::run` dispatches in priority order on args = argv minus the
program token: empty args or `help` first, returning successfully with no
command required and no handler invoked; then `version`, returning
successfully without dispatching; otherwise the head is looked up as a
command name — absent throws `CommandNotFoundException`, present executes
that command on a Context built from the remaining args.  A registered
command named `"version"` is therefore never reached: running
`["version"]` on `versionApp` prints the version line instead of
surfacing its handler's failure. -/
theorem run_dispatch_order :
    ∀ {ε : Type} (app : App ε),
      (app.run [] = .ok (.printed ["help"]))
      ∧ (∀ rest, app.run ("help" :: rest) = .ok (.printed ["help"]))
      ∧ (∀ rest, app.run ("version" :: rest) = .ok (.printed [app.version_]))
      ∧ (∀ c rest, c ≠ "help" → c ≠ "version" → mapFind app.commands_ c = none →
          app.run (c :: rest) = .error (.inl (.commandNotFound c)))
      ∧ (∀ c rest cmd, c ≠ "help" → c ≠ "version" → mapFind app.commands_ c = some cmd →
          app.run (c :: rest) = (cmd.execute (Context.ofArgs rest)).map (.executed c))
      ∧ versionApp.run ["version"] = .ok (.printed ["1.0"]) := by
  intro ε app
  refine ⟨rfl, fun rest => ?_, fun rest => ?_, ?_, ?_, by decide⟩
  · simp [App.run]
  · simp [App.run]
  · intro c rest hc1 hc2 hfind
    simp [App.run, hc1, hc2, hfind]
  · intro c rest cmd hc1 hc2 hfind
    simp [App.run, hc1, hc2, hfind]

theorem run_dispatch_order_witness :
    (App.mk (ε := Unit) "a" "" "1.0" []).run ["nope"] =
      .error (.inl (.commandNotFound "nope"))
    ∧ sumApp.run ["sum", "--a", "2"] = .error (.inl (.commandHasNotHandler "sum")) := by
  refine ⟨?_, ?_⟩
  · exact (run_dispatch_order (App.mk (ε := Unit) "a" "" "1.0" [])).2.2.2.1
      "nope" [] (by decide) (by decide) rfl
  · have h := (run_dispatch_order sumApp).2.2.2.2.1 "sum" ["--a", "2"]
      (Command.mk "sum" "" none []) (by decide) (by decide) rfl
    exact h.trans (by decide)

/-- C8 counterexample: `run(["version"])` prints exactly the version
string `"1.0"`; the application name `"example_hello"` is not among the
printed output, so "prints both the application name and the version
string" fails on the code. -/
theorem version_prints_only_version_counterexample :
    versionApp.run ["version"] = .ok (.printed ["1.0"])
    ∧ versionApp.name_ = "example_hello"
    ∧ "example_hello" ∉ ["1.0"] := by
  exact ⟨by decide, rfl, by decide⟩

/-- C8 (amended): when `args[0] == "version"`, `App::run` prints the
version string only — not the application name — and returns
successfully. -/
theorem version_branch_output :
    ∀ {ε : Type} (app : App ε) (rest : List String),
      app.run ("version" :: rest) = .ok (.printed [app.version_]) := by
  intro ε app rest
  simp [App.run]

/-- C9 counterexample: calling `option` twice with the same name and
different descriptions leaves the first description in effect, not the
second — `std::map::emplace` does not overwrite. -/
theorem option_no_overwrite_counterexample :
    mapFind (((Command.mk (ε := Unit) "c" "" none []).option "a" "first").option
      "a" "second").options_ "a" = some ⟨"a", "first"⟩
    ∧ ¬ mapFind (((Command.mk (ε := Unit) "c" "" none []).option "a" "first").option
      "a" "second").options_ "a" = some ⟨"a", "second"⟩ := by
  exact ⟨by decide, by decide⟩

/-- C9 (amended): `Command::option(name, description)` registers the
Option Descriptor under that name only when the name is not already
present (`emplace` semantics: a second call with the same name leaves the
first description in effect); the rest of the command is unchanged and
the same Command is returned to permit chaining. -/
theorem option_emplace_policy :
    ∀ {ε : Type} (cmd : Command ε) (name desc : String),
      (mapFind cmd.options_ name = none →
        mapFind (cmd.option name desc).options_ name = some ⟨name, desc⟩)
      ∧ (∀ o, mapFind cmd.options_ name = some o →
        (cmd.option name desc).options_ = cmd.options_)
      ∧ (cmd.option name desc).name_ = cmd.name_
      ∧ (cmd.option name desc).desc_ = cmd.desc_
      ∧ (cmd.option name desc).handler_ = cmd.handler_ := by
  intro ε cmd name desc
  refine ⟨?_, ?_, rfl, rfl, rfl⟩
  · intro habs
    unfold Command.option mapEmplace
    simp only [habs, Option.isSome_none, Bool.false_eq_true, if_false]
    exact mapFind_append_right cmd.options_ name ⟨name, desc⟩ habs
  · intro o hsome
    unfold Command.option mapEmplace
    simp [hsome]

theorem option_emplace_policy_witness :
    mapFind ((Command.mk (ε := Unit) "c" "" none []).option "a" "first").options_ "a"
      = some ⟨"a", "first"⟩ := by
  exact (option_emplace_policy (Command.mk (ε := Unit) "c" "" none []) "a" "first").1
    (by decide)
